import Mathlib

/-!
Verification of the content-library builder and incremental build engine of a
static site generator (`ssg/main.py`).  Python dictionaries are embedded as
association lists (first binding wins, insertion order preserved), Python
`None` as `Option.none`, mutation as explicit state passing, and Python
exceptions (`TypeError`, `KeyError`, comparison `TypeError` inside `sorted`)
as the `Except Unit` monad.
-/

deriving instance DecidableEq for Except

namespace SSG

/-! ### Association-list dictionaries (embedding of Python `dict`) -/

/-- Lookup in an association list: first binding wins, like a Python dict
whose keys are unique. -/
def lookupA {κ α : Type} [DecidableEq κ] : List (κ × α) → κ → Option α
  | [], _ => none
  | kv :: rest, k => if kv.1 = k then some kv.2 else lookupA rest k

/-- Replace the value bound to key `k` (Python `d[k] = v` for a present key);
entries with other keys are untouched. -/
def replaceA {κ α : Type} [DecidableEq κ] (d : List (κ × α)) (k : κ) (v : α) :
    List (κ × α) :=
  d.map (fun kv => if kv.1 = k then (kv.1, v) else kv)

/-- Python `d[k] = v`: replace the binding if the key is present, otherwise
append a new binding at the end (dict insertion order). -/
def setA {κ α : Type} [DecidableEq κ] (d : List (κ × α)) (k : κ) (v : α) :
    List (κ × α) :=
  match lookupA d k with
  | some _ => replaceA d k v
  | none => d ++ [(k, v)]

/-- Python `d.setdefault(k, []).append(x)`. -/
def appendA {κ α : Type} [DecidableEq κ] (d : List (κ × List α)) (k : κ) (x : α) :
    List (κ × List α) :=
  match lookupA d k with
  | some _ => d.map (fun kv => if kv.1 = k then (kv.1, kv.2 ++ [x]) else kv)
  | none => d ++ [(k, [x])]

/-- Grouping fold: `for (k, x) in pairs: d.setdefault(k, []).append(x)`. -/
def groupFold {κ α : Type} [DecidableEq κ] (pairs : List (κ × α))
    (d : List (κ × List α)) : List (κ × List α) :=
  pairs.foldl (fun d kv => appendA d kv.1 kv.2) d

/-! ### String helpers (embedding of the Python string operations used) -/

/-- Python `s.endswith(t)`. -/
def pyEndsWith (s t : String) : Bool :=
  decide (s.toList.reverse.take t.toList.length = t.toList.reverse)

/-- Last path segment of a slash-separated identifier (what comes after the
final `/`, the whole string when there is no `/`).  Used only to state the
spec's "last path segment" wording; the source never computes this. -/
def lastSegment (s : String) : String :=
  ((s.toList.reverse.takeWhile (fun c => c ≠ '/')).reverse).asString

/-- Python `os.path.dirname` on slash-separated page identifiers (everything
before the final `/`, `""` when there is no `/`). -/
def dirname (s : String) : String :=
  (((s.toList.reverse.dropWhile (fun c => c ≠ '/')).drop 1).reverse).asString

/-! ### Weight resolution (`process_weight`, main.py lines 243-263) -/

/-- Value of the TOML `weight` field as handed over by the TOML parser:
an integer, a string, or some other TOML value (float, array, table, ...),
which never passes the `isinstance(weight, int | None)` check. -/
inductive TVal : Type
  | int (n : Int)
  | str (s : String)
  | other
deriving Repr, DecidableEq

/-- Embedding of `process_weight(toml, page_id)`: `w` is `toml.get("weight",
None)`; the result is the weight, or an error for the raised `TypeError`. -/
def processWeight (w : Option TVal) (pid : String) : Except Unit (Option Int) :=
  let w1 : Option TVal :=
    if w = none ∧ pyEndsWith pid "index" = false then some (TVal.int 0)
    else if w = some (TVal.str "None") then none
    else w
  match w1 with
  | none => Except.ok none
  | some (TVal.int n) => Except.ok (some n)
  | some _ => Except.error ()

/-- Weight resolution as the (amended) spec words it: absent resolves to 0
unless the id ends with the string `index`, in which case absent resolves to
unweighted; the literal string "None" resolves to unweighted; an integer is
kept; anything else is a validation failure. -/
def weightSpec (w : Option TVal) (pid : String) : Except Unit (Option Int) :=
  match w with
  | none =>
    if pyEndsWith pid "index" then Except.ok none else Except.ok (some 0)
  | some (TVal.int n) => Except.ok (some n)
  | some (TVal.str s) => if s = "None" then Except.ok none else Except.error ()
  | some TVal.other => Except.error ()

/-! ### Versioned asset map (`process_versioned`, main.py lines 411-424) -/

/-- Helper for the embedding of Python `int(s)` on the strings that occur as
the sub-suffix of a versioned filename: digits with an optional leading
minus sign. -/
def natOfDigits (ds : List Char) : Nat :=
  ds.foldl (fun acc c => 10 * acc + (c.toNat - '0'.toNat)) 0

/-- Embedding of Python `int(s)` (`none` models the raised `ValueError`). -/
def pyInt (s : String) : Option Int :=
  match s.toList with
  | [] => none
  | '-' :: ds =>
    if ds ≠ [] ∧ ds.all Char.isDigit then some (-(natOfDigits ds : Int))
    else none
  | ds => if ds.all Char.isDigit then some (natOfDigits ds : Int) else none

/-- A relative file path, represented by the dot-separated components of its
name (directories play no role in the version logic and are omitted):
`a.2.css` is `["a", "2", "css"]`. -/
abbrev NameParts := List String

/-- Extraction step of `process_versioned`: `int(path.suffixes[-2][1:])` and
`path.with_suffix("").with_suffix(path.suffix)`.  Returns the unversioned
key and the version, or `none` when `IndexError` (fewer than two suffixes)
or `ValueError` (non-numeric segment) is raised and swallowed. -/
def pathVersion (parts : NameParts) : Option (NameParts × Int) :=
  match parts.reverse with
  | ext :: vseg :: r :: rs =>
    (pyInt vseg).map (fun v => ((r :: rs).reverse ++ [ext], v))
  | _ => none

/-- Embedding of `process_versioned(path, max_version)`: record the version
under the unversioned key when it exceeds the recorded maximum (default 0). -/
def processVersioned (parts : NameParts) (mv : List (NameParts × Int)) :
    List (NameParts × Int) :=
  match pathVersion parts with
  | some (key, v) => if (lookupA mv key).getD 0 < v then setA mv key v else mv
  | none => mv

/-- The walk of `build_library` restricted to its `process_versioned` calls:
fold the files in walk order into the `max_version` dict, starting empty. -/
def runVersioned (paths : List NameParts) : List (NameParts × Int) :=
  paths.foldl (fun mv p => processVersioned p mv) []

/-- All version numbers seen for unversioned key `k` across the walked
paths, in walk order. -/
def versionsFor (k : NameParts) (paths : List NameParts) : List Int :=
  paths.filterMap (fun p =>
    match pathVersion p with
    | some (key, v) => if key = k then some v else none
    | none => none)

/-- The version-map update rule projected onto one key: fold the versions
seen for that key over the current binding (`none` = key absent, compared
through a default of 0). -/
def posFold (cur : Option Int) : List Int → Option Int
  | [] => cur
  | v :: vs => posFold (if cur.getD 0 < v then some v else cur) vs

/-! ### Sharded text decoding (`process_content`, main.py lines 155-176) -/

/-- Python `s.replace('triple-quote', 'quote-quote-backslash-quote')` applied
to a shard body: escape each embedded `"""` so the body can be re-embedded
in a TOML multiline string literal (left-to-right, non-overlapping). -/
def replace3q : List Char → List Char
  | '"' :: '"' :: '"' :: rest => '"' :: '"' :: '\\' :: '"' :: replace3q rest
  | c :: rest => c :: replace3q rest
  | [] => []

/-- Python `s.strip()`: remove leading and trailing whitespace. -/
def stripChars (l : List Char) : List Char :=
  ((l.dropWhile Char.isWhitespace).reverse.dropWhile Char.isWhitespace).reverse

/-- The body transform applied to every shard before grouping:
`shard.replace('"""', '""\\"').strip()`. -/
def pyShardBody (s : String) : String :=
  (stripChars (replace3q s.toList)).asString

/-- Pair up `zip(shards[1::2], shards[2::2])`: after `re.split` with one
capture group, odd positions hold marker identifiers and even positions
(from 2 on) hold the bodies that follow them. -/
def zipPairs : List String → List (String × String)
  | a :: b :: t => (a, b) :: zipPairs t
  | _ => []

/-- The `shard_dict` loop: group transformed bodies by identifier with
`setdefault(id_, []).append(shard)`, preserving first-seen key order. -/
def buildShardDict (pairs : List (String × String)) : List (String × List String) :=
  pairs.foldl (fun d kv => appendA d kv.1 (pyShardBody kv.2)) []

/-- Shape of the value each identifier is bound to in the synthetic TOML
document: a single multiline string or an array of them. -/
inductive ShardVal : Type
  | scalar (s : String)
  | array (l : List String)
deriving Repr, DecidableEq

/-- The statement-building loop: an identifier with more than one body
becomes an array binding, otherwise a scalar binding of its only body. -/
def shardValues (d : List (String × List String)) : List (String × ShardVal) :=
  d.map (fun kv =>
    (kv.1, if kv.2.length > 1 then ShardVal.array kv.2
           else ShardVal.scalar (kv.2.headD "")))

/-- Embedding of the sharded branch of `process_content`: `shards` is the
result of `re.split(shard_re, content, flags=re.M)`; the file is sharded
when the split produced more than one piece and the piece before the first
marker is empty (the marker is the first line).  Returns the
identifier-to-value bindings of the synthetic TOML document, or `none` when
the content is not sharded. -/
def processSharded (shards : List String) : Option (List (String × ShardVal)) :=
  if shards.length > 1 ∧ shards.head? = some "" then
    some (shardValues (buildShardDict (zipPairs shards.tail)))
  else none

/-- Transformed bodies bound to identifier `id` in file order. -/
def shardBodies (i : String) (shards : List String) : List String :=
  ((zipPairs shards.tail).filter (fun kv => kv.1 = i)).map
    (fun kv => pyShardBody kv.2)

/-! ### Ordering keys and Python's `sorted` (fallible tuple comparison) -/

/-- Strict lexicographic comparison of `(weight, id)` keys whose weight is
an integer: Python `(a1, a2) < (b1, b2)` for comparable components. -/
def kiLt (a b : Int × String) : Bool :=
  if a.1 < b.1 then true
  else if a.1 = b.1 then decide (a.2 < b.2)
  else false

/-- Python comparison of two `(weight, id)` tuples where the weight may be
`None`: `None` compares equal to itself (falling through to the ids), but
ordering `None` against an integer raises `TypeError`, modelled as an
error. -/
def pyKeyLt : Option Int × String → Option Int × String → Except Unit Bool
  | (some a, s), (some b, t) => Except.ok (kiLt (a, s) (b, t))
  | (none, s), (none, t) => Except.ok (decide (s < t))
  | _, _ => Except.error ()

/-- Insertion step of a stable sort with a comparison that can raise. -/
def insertE {α : Type} (lt : α → α → Except Unit Bool) (x : α) :
    List α → Except Unit (List α)
  | [] => Except.ok [x]
  | y :: ys =>
    match lt x y with
    | Except.error e => Except.error e
    | Except.ok true => Except.ok (x :: y :: ys)
    | Except.ok false =>
      match insertE lt x ys with
      | Except.error e => Except.error e
      | Except.ok r => Except.ok (y :: r)

/-- Embedding of Python `sorted`/`list.sort` with a key comparison that can
raise `TypeError`: a stable insertion sort in the error monad.  On inputs
whose keys are pairwise comparable it agrees with any stable sort (keys
built from distinct ids are distinct); on a two-element incomparable input
it raises, as CPython's sort does. -/
def sortE {α : Type} (lt : α → α → Except Unit Bool) :
    List α → Except Unit (List α)
  | [] => Except.ok []
  | x :: xs =>
    match sortE lt xs with
    | Except.error e => Except.error e
    | Except.ok r => insertE lt x r

/-- Pure stable insertion step. -/
def insertT {α : Type} (lt : α → α → Bool) (x : α) : List α → List α
  | [] => [x]
  | y :: ys => if lt x y then x :: y :: ys else y :: insertT lt x ys

/-- Pure stable insertion sort; `sortE` agrees with it when no comparison
raises. -/
def sortT {α : Type} (lt : α → α → Bool) : List α → List α
  | [] => []
  | x :: xs => insertT lt x (sortT lt xs)

/-- The partition loop of `sort_siblings` with a fallible test:
`for s in rest: (lighter if key(s) < key(me) else heavier).append(s)`. -/
def partitionE {α : Type} (p : α → Except Unit Bool) :
    List α → Except Unit (List α × List α)
  | [] => Except.ok ([], [])
  | x :: xs =>
    match p x with
    | Except.error e => Except.error e
    | Except.ok b =>
      match partitionE p xs with
      | Except.error e => Except.error e
      | Except.ok (l, h) =>
        Except.ok (if b then (x :: l, h) else (l, x :: h))

/-! ### Pages and sibling resolution (main.py lines 19-36 and 266-327) -/

/-- Embedding of the `Page` record (fields not used by the verified
components — content, data, subdirs, output filename — are omitted).
`path` is the output path, `""` when the page has no template. -/
structure Page : Type where
  id : String
  path : String
  weight : Option Int
  tags : List String
  siblings : List String := []
  lighter : Option String := none
  heavier : Option String := none
deriving Repr, DecidableEq

/-- The `pages` dict of the library: page id to `Page`, insertion ordered. -/
abbrev PageMap := List (String × Page)

/-- Weight of page `a` as `sort_siblings`'s `key` reads it
(`pages[a].weight`); `none` doubles for a missing page, which cannot occur
at the call sites. -/
def wOf (ps : PageMap) (a : String) : Option Int :=
  match lookupA ps a with
  | some p => p.weight
  | none => none

/-- The `key` closure of `sort_siblings`: `(pages[a].weight, a)`. -/
def skey (ps : PageMap) (a : String) : Option Int × String := (wOf ps a, a)

/-- Presence-and-weight view of a page map at one id (distinguishes a
missing page from a present unweighted page); `sort_siblings` reads the map
only through this view, and the `fix_siblings` loop preserves it. -/
def pweight (ps : PageMap) (a : String) : Option (Option Int) :=
  (lookupA ps a).map Page.weight

/-- Integer-weight view of the key, meaningful when the weight is present
(missing weights read as 0; the theorems only use it under hypotheses that
rule that case out). -/
def ikey (ps : PageMap) (a : String) : Int × String := ((wOf ps a).getD 0, a)

/-- Embedding of `sort_siblings(siblings, me, pages)` (main.py 266-297).
The sibling set is carried as a list; the Python set iteration order is
immaterial because every result is sorted by a key that distinct ids make
distinct.  Errors model `TypeError` from comparing a `None` weight with an
integer (and `KeyError` for a subject missing from `pages`, which the
caller never produces). -/
def sortSiblings (sibs : List String) (me : String) (ps : PageMap) :
    Except Unit (List String × Option String × Option String) :=
  match lookupA ps me with
  | none => Except.error ()
  | some pme =>
    match pme.weight with
    | none =>
      match sortE (fun a b => pyKeyLt (skey ps a) (skey ps b)) sibs with
      | Except.error e => Except.error e
      | Except.ok s => Except.ok (s, none, none)
    | some _ =>
      let rest := sibs.filter (fun s => s ≠ me)
      match partitionE (fun s => pyKeyLt (skey ps s) (skey ps me)) rest with
      | Except.error e => Except.error e
      | Except.ok (lighter, heavier) =>
        match sortE (fun a b => pyKeyLt (skey ps a) (skey ps b)) lighter with
        | Except.error e => Except.error e
        | Except.ok ls =>
          match sortE (fun a b => pyKeyLt (skey ps a) (skey ps b)) heavier with
          | Except.error e => Except.error e
          | Except.ok hs => Except.ok (ls ++ hs, ls.getLast?, hs.head?)

/-- The sibling-set dict of `fix_siblings` (main.py 308-316): directory to
the ids in it that are weight-bearing (`weight is not None`) and
output-producing (`path` non-empty). -/
def buildSiblingDict (ps : PageMap) : List (String × List String) :=
  ps.foldl (fun d kv =>
    if kv.2.weight = none ∨ kv.2.path = "" then d
    else appendA d (dirname kv.1) kv.1) []

/-- One iteration of the assignment loop of `fix_siblings` (main.py
318-327): pages whose directory has no weight-bearing, output-producing
member are skipped, every other page gets the computed
siblings/lighter/heavier fields. -/
def fixStep (sdict : List (String × List String)) (ps : PageMap)
    (pid : String) : Except Unit PageMap :=
  match lookupA sdict (dirname pid) with
  | none => Except.ok ps
  | some sibs =>
    match sortSiblings sibs pid ps with
    | Except.error e => Except.error e
    | Except.ok (s, l, h) =>
      match lookupA ps pid with
      | none => Except.error ()
      | some p =>
        Except.ok (replaceA ps pid
          { p with siblings := s, lighter := l, heavier := h })

/-- Embedding of `fix_siblings(pages)`: build the sibling dict, then run the
assignment loop over the page ids in insertion order, threading the mutated
dict. -/
def fixSiblings (ps : PageMap) : Except Unit PageMap :=
  (ps.map Prod.fst).foldlM (fixStep (buildSiblingDict ps)) ps

/-! ### Tag index (`process_tags`, main.py lines 395-408) -/

/-- Embedding of `process_tags(pages)`: append each page's id to each of its
tags' lists, then sort every list with the `(pages[a].weight, a)` key —
using the same fallible comparison, since a `None` weight sorted against an
integer raises `TypeError`. -/
def processTags (ps : PageMap) : Except Unit (List (String × List String)) :=
  let tags0 : List (String × List String) :=
    ps.foldl (fun d kv => kv.2.tags.foldl (fun d t => appendA d t kv.2.id) d) []
  tags0.foldlM (fun acc kv =>
    match sortE (fun a b => pyKeyLt (skey ps a) (skey ps b)) kv.2 with
    | Except.error e => Except.error e
    | Except.ok s => Except.ok (acc ++ [(kv.1, s)])) []

/-! ### Build engine (`output_site`, main.py lines 475-499) -/

/-- Embedding of the `Task` record: page id, latest relevant timestamp,
template name, output path (relative to the output directory). -/
structure OTask : Type where
  page_id : String
  latest_timestamp : Int
  template : String
  output_path : String
deriving Repr, DecidableEq

/-- The output directory as the build engine sees it: for each path, the
file's modification time and current text. -/
abbrev FS := List (String × (Int × String))

/-- State threaded through the task loop of `output_site`: the output tree,
the page ids rendered so far (in order), and the number of file writes
performed. -/
structure BuildState : Type where
  fs : FS
  rendered : List String
  writes : Nat
deriving Repr, DecidableEq

/-- One iteration of the task loop of `output_site` (main.py 482-498).
`render` abstracts the external template engine (deterministic in the task
for a fixed library), `tnow` is the modification time a write stamps.  In
quick mode a task whose output exists with a modification time strictly
newer than its latest relevant timestamp is skipped; otherwise the page is
rendered and written only when the rendered text differs from the existing
text (a missing file always differs). -/
def taskStep (quick : Bool) (render : OTask → String) (tnow : Int)
    (st : BuildState) (task : OTask) : BuildState :=
  let existing := lookupA st.fs task.output_path
  if quick &&
      (match existing with
       | some e => decide (e.1 > task.latest_timestamp)
       | none => false) then
    st
  else
    let out := render task
    let needWrite :=
      match existing with
      | some e => decide (out ≠ e.2)
      | none => true
    { fs := if needWrite then setA st.fs task.output_path (tnow, out) else st.fs
      rendered := st.rendered ++ [task.page_id]
      writes := st.writes + (if needWrite then 1 else 0) }

/-- The task loop of `output_site` over a whole task list. -/
def outputSite (quick : Bool) (render : OTask → String) (tnow : Int)
    (fs0 : FS) (tasks : List OTask) : BuildState :=
  tasks.foldl (taskStep quick render tnow) { fs := fs0, rendered := [], writes := 0 }

/-- A concrete deterministic template for witnesses and counterexamples: a
template whose rendering is the page id. -/
def renderId : OTask → String := fun t => t.page_id

/-! ## Supporting lemmas: association-list dictionaries -/

theorem lookupA_append_of_none {κ α : Type} [DecidableEq κ] {d : List (κ × α)}
    (e : List (κ × α)) {k : κ} (h : lookupA d k = none) :
    lookupA (d ++ e) k = lookupA e k := by
  induction d with
  | nil => rfl
  | cons kv rest ih =>
    by_cases hk : kv.1 = k
    · simp [lookupA, hk] at h
    · simp only [List.cons_append, lookupA, if_neg hk] at h ⊢
      exact ih h

theorem lookupA_append_of_some {κ α : Type} [DecidableEq κ] {d : List (κ × α)}
    (e : List (κ × α)) {k : κ} {v : α} (h : lookupA d k = some v) :
    lookupA (d ++ e) k = some v := by
  induction d with
  | nil => simp [lookupA] at h
  | cons kv rest ih =>
    by_cases hk : kv.1 = k
    · simp only [lookupA, if_pos hk] at h
      simp only [List.cons_append, lookupA, if_pos hk]
      exact h
    · simp only [lookupA, if_neg hk] at h
      simp only [List.cons_append, lookupA, if_neg hk]
      exact ih h

theorem lookupA_map_upd {κ α : Type} [DecidableEq κ] (d : List (κ × α))
    (k : κ) (g : α → α) :
    lookupA (d.map fun kv => if kv.1 = k then (kv.1, g kv.2) else kv) k
      = (lookupA d k).map g := by
  induction d with
  | nil => rfl
  | cons kv rest ih =>
    by_cases hk : kv.1 = k <;> simp [lookupA, hk, ih]

theorem lookupA_map_upd_ne {κ α : Type} [DecidableEq κ] (d : List (κ × α))
    {k k' : κ} (g : α → α) (hne : k' ≠ k) :
    lookupA (d.map fun kv => if kv.1 = k then (kv.1, g kv.2) else kv) k'
      = lookupA d k' := by
  induction d with
  | nil => rfl
  | cons kv rest ih =>
    by_cases hk : kv.1 = k
    · have hkk : ¬ kv.1 = k' := by rw [hk]; exact fun h => hne h.symm
      simp only [List.map_cons, lookupA, if_pos hk, if_neg hkk, ih]
    · simp only [List.map_cons, lookupA, if_neg hk, ih]

theorem lookupA_replaceA_self {κ α : Type} [DecidableEq κ] (d : List (κ × α))
    (k : κ) (v : α) :
    lookupA (replaceA d k v) k = (lookupA d k).map (fun _ => v) :=
  lookupA_map_upd d k (fun _ => v)

theorem lookupA_replaceA_ne {κ α : Type} [DecidableEq κ] (d : List (κ × α))
    {k k' : κ} (v : α) (hne : k' ≠ k) :
    lookupA (replaceA d k v) k' = lookupA d k' :=
  lookupA_map_upd_ne d (fun _ => v) hne

theorem lookupA_setA_self {κ α : Type} [DecidableEq κ] (d : List (κ × α))
    (k : κ) (v : α) : lookupA (setA d k v) k = some v := by
  unfold setA
  cases h : lookupA d k with
  | none => rw [lookupA_append_of_none _ h]; simp [lookupA]
  | some w => rw [lookupA_replaceA_self, h]; rfl

theorem lookupA_setA_ne {κ α : Type} [DecidableEq κ] (d : List (κ × α))
    {k k' : κ} (v : α) (hne : k' ≠ k) :
    lookupA (setA d k v) k' = lookupA d k' := by
  unfold setA
  cases h : lookupA d k with
  | none =>
    show lookupA (d ++ [(k, v)]) k' = lookupA d k'
    cases h' : lookupA d k' with
    | none =>
      rw [lookupA_append_of_none _ h']
      simp only [lookupA]
      rw [if_neg (fun hkk => hne hkk.symm)]
    | some w => exact lookupA_append_of_some _ h'
  | some w =>
    show lookupA (replaceA d k v) k' = lookupA d k'
    exact lookupA_replaceA_ne d v hne

theorem lookupA_appendA_self {κ α : Type} [DecidableEq κ] (d : List (κ × List α))
    (k : κ) (x : α) :
    lookupA (appendA d k x) k = some ((lookupA d k).getD [] ++ [x]) := by
  unfold appendA
  cases h : lookupA d k with
  | none =>
    show lookupA (d ++ [(k, [x])]) k = some ((none : Option (List α)).getD [] ++ [x])
    rw [lookupA_append_of_none _ h]
    simp [lookupA]
  | some w =>
    show lookupA (d.map fun kv => if kv.1 = k then (kv.1, kv.2 ++ [x]) else kv) k
        = some ((some w).getD [] ++ [x])
    have hm := lookupA_map_upd d k (fun v => v ++ [x])
    rw [h] at hm
    exact hm

theorem lookupA_appendA_ne {κ α : Type} [DecidableEq κ] (d : List (κ × List α))
    {k k' : κ} (x : α) (hne : k' ≠ k) :
    lookupA (appendA d k x) k' = lookupA d k' := by
  unfold appendA
  cases h : lookupA d k with
  | none =>
    show lookupA (d ++ [(k, [x])]) k' = lookupA d k'
    cases h' : lookupA d k' with
    | none =>
      rw [lookupA_append_of_none _ h']
      simp only [lookupA]
      rw [if_neg (fun hkk => hne hkk.symm)]
    | some w => exact lookupA_append_of_some _ h'
  | some w =>
    show lookupA (d.map fun kv => if kv.1 = k then (kv.1, kv.2 ++ [x]) else kv) k'
        = lookupA d k'
    exact lookupA_map_upd_ne d (fun v => v ++ [x]) hne

theorem lookupA_mem {κ α : Type} [DecidableEq κ] {d : List (κ × α)} {k : κ}
    {v : α} (h : lookupA d k = some v) : (k, v) ∈ d := by
  induction d with
  | nil => simp [lookupA] at h
  | cons kv rest ih =>
    by_cases hk : kv.1 = k
    · simp only [lookupA, if_pos hk] at h
      have h2 : kv.2 = v := Option.some.inj h
      rw [← hk, ← h2]
      exact List.mem_cons_self _ _
    · simp only [lookupA, if_neg hk] at h
      exact List.mem_cons_of_mem _ (ih h)

theorem lookupA_of_mem_nodup {κ α : Type} [DecidableEq κ] {d : List (κ × α)}
    {k : κ} {v : α} (hmem : (k, v) ∈ d) (hnd : (d.map Prod.fst).Nodup) :
    lookupA d k = some v := by
  induction d with
  | nil => simp at hmem
  | cons kv rest ih =>
    simp only [List.map_cons, List.nodup_cons] at hnd
    rcases List.mem_cons.mp hmem with heq | hmem'
    · rw [← heq]; simp [lookupA]
    · have hk : kv.1 ≠ k := by
        intro hk
        exact hnd.1 (hk ▸ (List.mem_map.mpr ⟨(k, v), hmem', rfl⟩))
      simp [lookupA, hk, ih hmem' hnd.2]

/-! ## Claim C4: weight resolution (`process_weight`) -/

/-- Claim C4, counterexample: the spec keys "absent defaults to unweighted"
on the id's last path segment being `index`, but the code tests
`page_id.endswith("index")`.  For the page id `myindex` the last segment is
`myindex`, not `index`, so the claim demands weight 0; the code yields the
unweighted sentinel. -/
theorem processWeight_lastSegment_cx :
    lastSegment "myindex" ≠ "index" ∧
    processWeight none "myindex" = Except.ok none ∧
    processWeight none "myindex" ≠ Except.ok (some 0) := by decide

/-- Claim C4 (amended: "last path segment is `index`" becomes "the id ends
with the string `index`"): weight resolution yields 0 when the field is
absent and the id does not end with `index`; the unweighted sentinel when
the field is absent and the id ends with `index`, or when the field is the
literal string "None"; the integer itself for an integer field; and a
validation failure for any other value.  `weightSpec` transcribes exactly
that wording. -/
theorem processWeight_spec (w : Option TVal) (pid : String) :
    processWeight w pid = weightSpec w pid := by
  cases w with
  | none =>
    cases h : pyEndsWith pid "index" <;>
      simp [processWeight, weightSpec, h]
  | some v =>
    cases v with
    | int n => simp [processWeight, weightSpec]
    | str s =>
      by_cases hs : s = "None" <;>
        simp [processWeight, weightSpec, hs]
    | other => simp [processWeight, weightSpec]

/-! ## Claims C7 and C10: versioned asset map (`process_versioned`) -/

theorem runVersioned_lookup_aux (paths : List NameParts)
    (mv : List (NameParts × Int)) (k : NameParts) :
    lookupA (paths.foldl (fun mv p => processVersioned p mv) mv) k
      = posFold (lookupA mv k) (versionsFor k paths) := by
  induction paths generalizing mv with
  | nil => rfl
  | cons p paths ih =>
    simp only [List.foldl_cons, versionsFor, List.filterMap_cons]
    unfold processVersioned
    cases hpv : pathVersion p with
    | none => simpa [versionsFor] using ih mv
    | some kv =>
      obtain ⟨key, v⟩ := kv
      by_cases hk : key = k
      · subst hk
        simp only [if_pos rfl]
        by_cases hlt : (lookupA mv key).getD 0 < v
        · rw [if_pos hlt]
          have := ih (setA mv key v)
          rw [lookupA_setA_self] at this
          simpa [versionsFor, posFold, hlt] using this
        · rw [if_neg hlt]
          simpa [versionsFor, posFold, hlt] using ih mv
      · have hk' : ¬ key = k := hk
        simp only [if_neg hk']
        by_cases hlt : (lookupA mv key).getD 0 < v
        · rw [if_pos hlt]
          have := ih (setA mv key v)
          rw [lookupA_setA_ne mv v (fun h => hk h.symm)] at this
          simpa [versionsFor] using this
        · rw [if_neg hlt]
          simpa [versionsFor] using ih mv

theorem posFold_some (c : Int) (vs : List Int) :
    posFold (some c) vs = some (vs.foldl max c) := by
  induction vs generalizing c with
  | nil => rfl
  | cons v vs ih =>
    simp only [posFold, Option.getD_some, List.foldl_cons]
    rcases lt_or_ge c v with h | h
    · rw [if_pos h, ih, max_eq_right h.le]
    · rw [if_neg (not_lt.mpr h), ih, max_eq_left h]

/-- Claim C7: over any walked sequence of files, the version map binds an
unversioned key to the maximum version seen for it (provided the versions
seen for that key are positive, the case the claim describes; nonpositive
versions are the subject of C10), and to nothing when no version was seen. -/
theorem runVersioned_max (paths : List NameParts) (k : NameParts)
    (hpos : ∀ v ∈ versionsFor k paths, 0 < v) :
    lookupA (runVersioned paths) k = (versionsFor k paths).max? := by
  unfold runVersioned
  rw [runVersioned_lookup_aux paths [] k]
  cases hv : versionsFor k paths with
  | nil => rfl
  | cons v vs =>
    have h0 : (0 : Int) < v :=
      hpos v (by rw [hv]; exact List.mem_cons_self _ _)
    show posFold (lookupA [] k) (v :: vs) = (v :: vs).max?
    simp only [posFold, lookupA, Option.getD_none, if_pos h0]
    rw [posFold_some]
    rfl

/-- Claim C7, witness: the files `a.1.ext`, `a.2.ext`, `a.3.ext` walked in
order bind `a.ext` to 3. -/
theorem runVersioned_max_witness :
    (∀ v ∈ versionsFor ["a", "ext"] [["a", "1", "ext"], ["a", "2", "ext"], ["a", "3", "ext"]], 0 < v) ∧
    lookupA (runVersioned [["a", "1", "ext"], ["a", "2", "ext"], ["a", "3", "ext"]]) ["a", "ext"] = some 3 :=
  ⟨by decide,
   (runVersioned_max [["a", "1", "ext"], ["a", "2", "ext"], ["a", "3", "ext"]]
      ["a", "ext"] (by decide)).trans (by decide)⟩

/-- Claim C10: a path whose version segment parses to zero or a negative
integer leaves the max-version map unchanged (for any reachable map, i.e.
one whose recorded versions are positive — versions are only ever recorded
when strictly greater than the 0 default). -/
theorem processVersioned_nonpos (parts : NameParts)
    (mv : List (NameParts × Int)) (key : NameParts) (v : Int)
    (hmv : ∀ e ∈ mv, 0 < e.2) (hpv : pathVersion parts = some (key, v))
    (hv : v ≤ 0) : processVersioned parts mv = mv := by
  unfold processVersioned
  rw [hpv]
  cases h : lookupA mv key with
  | none =>
    simp only [h, Option.getD_none]
    rw [if_neg (by omega)]
  | some x =>
    have hx : 0 < x := hmv (key, x) (lookupA_mem h)
    simp only [h, Option.getD_some]
    rw [if_neg (by omega)]

/-- Claim C10, witness: the file `a.0.ext` leaves a map binding `a.ext` to 3
untouched. -/
theorem processVersioned_nonpos_witness :
    (∀ e ∈ [(["a", "ext"], (3 : Int))], 0 < e.2) ∧
    pathVersion ["a", "0", "ext"] = some (["a", "ext"], 0) ∧
    processVersioned ["a", "0", "ext"] [(["a", "ext"], 3)] = [(["a", "ext"], 3)] :=
  ⟨by decide, by decide,
   processVersioned_nonpos ["a", "0", "ext"] [(["a", "ext"], 3)] ["a", "ext"] 0
     (by decide) (by decide) (by decide)⟩

/-! ## Claim C2: quick-mode skip decision (`output_site`) -/

theorem taskStep_rendered_full (render : OTask → String) (tnow : Int)
    (st : BuildState) (task : OTask) :
    (taskStep false render tnow st task).rendered
      = st.rendered ++ [task.page_id] := by
  simp [taskStep]

theorem taskStep_skip_state (render : OTask → String) (tnow : Int)
    (st : BuildState) (task : OTask) {m : Int} {c : String}
    (hm : lookupA st.fs task.output_path = some (m, c))
    (hgt : task.latest_timestamp < m) :
    taskStep true render tnow st task = st := by
  simp [taskStep, hm, hgt]

theorem taskStep_rendered_quick_missing (render : OTask → String) (tnow : Int)
    (st : BuildState) (task : OTask)
    (hm : lookupA st.fs task.output_path = none) :
    (taskStep true render tnow st task).rendered
      = st.rendered ++ [task.page_id] := by
  simp [taskStep, hm]

theorem taskStep_rendered_quick_stale (render : OTask → String) (tnow : Int)
    (st : BuildState) (task : OTask) {m : Int} {c : String}
    (hm : lookupA st.fs task.output_path = some (m, c))
    (hgt : ¬ task.latest_timestamp < m) :
    (taskStep true render tnow st task).rendered
      = st.rendered ++ [task.page_id] := by
  simp [taskStep, hm, hgt]

theorem rendered_append_ne (l : List String) (x : String) : l ++ [x] ≠ l := by
  intro h
  have := congrArg List.length h
  simp at this

/-- Claim C2: a task is skipped (the build state is left untouched, nothing
is rendered) if and only if quick mode is on, the task's output file
exists, and its modification time is strictly greater than the task's
latest relevant timestamp; in full (non-quick) mode the task is always
rendered. -/
theorem taskStep_skip_iff (quick : Bool) (render : OTask → String) (tnow : Int)
    (st : BuildState) (task : OTask) :
    ((taskStep quick render tnow st task).rendered = st.rendered
      ↔ quick = true ∧ ∃ m c, lookupA st.fs task.output_path = some (m, c) ∧
          task.latest_timestamp < m)
    ∧ ((quick = true ∧ ∃ m c, lookupA st.fs task.output_path = some (m, c) ∧
          task.latest_timestamp < m) → taskStep quick render tnow st task = st)
    ∧ (quick = false →
        (taskStep quick render tnow st task).rendered
          = st.rendered ++ [task.page_id]) := by
  cases quick with
  | false =>
    have hr := taskStep_rendered_full render tnow st task
    refine ⟨⟨fun h => absurd (hr ▸ h) (rendered_append_ne _ _), ?_⟩, ?_,
      fun _ => hr⟩
    · rintro ⟨h, -⟩; exact absurd h (by simp)
    · rintro ⟨h, -⟩; exact absurd h (by simp)
  | true =>
    cases hl : lookupA st.fs task.output_path with
    | none =>
      have hr := taskStep_rendered_quick_missing render tnow st task hl
      refine ⟨⟨fun h => absurd (hr ▸ h) (rendered_append_ne _ _), ?_⟩, ?_,
        fun h => absurd h (by simp)⟩
      · rintro ⟨-, m, c, hmc, -⟩
        exact absurd hmc (by simp)
      · rintro ⟨-, m, c, hmc, -⟩
        exact absurd hmc (by simp)
    | some e =>
      obtain ⟨m, c⟩ := e
      by_cases hgt : task.latest_timestamp < m
      · have hs := taskStep_skip_state render tnow st task hl hgt
        exact ⟨⟨fun _ => ⟨rfl, m, c, rfl, hgt⟩, fun _ => by rw [hs]⟩,
          fun _ => hs, fun h => absurd h (by simp)⟩
      · have hr := taskStep_rendered_quick_stale render tnow st task hl hgt
        refine ⟨⟨fun h => absurd (hr ▸ h) (rendered_append_ne _ _), ?_⟩, ?_,
          fun h => absurd h (by simp)⟩
        · rintro ⟨-, m2, c2, hmc, hlt⟩
          have h1 : m = m2 := congrArg (fun o => (o.getD (0, "")).1) hmc
          exact absurd (h1 ▸ hlt) hgt
        · rintro ⟨-, m2, c2, hmc, hlt⟩
          have h1 : m = m2 := congrArg (fun o => (o.getD (0, "")).1) hmc
          exact absurd (h1 ▸ hlt) hgt

/-- Claim C2, witness: a concrete quick-mode run skips a task whose output
file (mtime 10) is newer than its latest relevant timestamp (3), and the
same task in full mode is rendered. -/
theorem taskStep_skip_iff_witness :
    taskStep true renderId 5
        { fs := [("a.html", (10, "old"))], rendered := [], writes := 0 }
        { page_id := "a", latest_timestamp := 3, template := "t",
          output_path := "a.html" }
      = { fs := [("a.html", (10, "old"))], rendered := [], writes := 0 } ∧
    (taskStep false renderId 5
        { fs := [("a.html", (10, "old"))], rendered := [], writes := 0 }
        { page_id := "a", latest_timestamp := 3, template := "t",
          output_path := "a.html" }).rendered = ["a"] :=
  ⟨(taskStep_skip_iff true renderId 5
      { fs := [("a.html", (10, "old"))], rendered := [], writes := 0 }
      { page_id := "a", latest_timestamp := 3, template := "t",
        output_path := "a.html" }).2.1
      ⟨rfl, 10, "old", by decide, by decide⟩,
   ((taskStep_skip_iff false renderId 5
      { fs := [("a.html", (10, "old"))], rendered := [], writes := 0 }
      { page_id := "a", latest_timestamp := 3, template := "t",
        output_path := "a.html" }).2.2 rfl).trans (by decide)⟩

/-! ## Claim C8: write-if-changed and second-run idempotence -/

theorem taskStep_fs_self (render : OTask → String) (tnow : Int)
    (st : BuildState) (task : OTask) :
    ∃ m, lookupA (taskStep false render tnow st task).fs task.output_path
      = some (m, render task) := by
  cases hl : lookupA st.fs task.output_path with
  | none => exact ⟨tnow, by simp [taskStep, hl, lookupA_setA_self]⟩
  | some e =>
    obtain ⟨m, c⟩ := e
    by_cases hc : render task = c
    · exact ⟨m, by simp [taskStep, hl, hc]⟩
    · exact ⟨tnow, by simp [taskStep, hl, hc, lookupA_setA_self]⟩

theorem taskStep_fs_ne (quick : Bool) (render : OTask → String) (tnow : Int)
    (st : BuildState) (task : OTask) {p : String}
    (hp : task.output_path ≠ p) :
    lookupA (taskStep quick render tnow st task).fs p = lookupA st.fs p := by
  simp only [taskStep]
  split
  · rfl
  · cases hm : lookupA st.fs task.output_path with
    | none => simp [hm, lookupA_setA_ne _ _ (fun h => hp h.symm)]
    | some e => by_cases hc : render task = e.2 <;>
        simp [hm, hc, lookupA_setA_ne _ _ (fun h => hp h.symm)]

theorem run_fs_content (render : OTask → String) (tnow : Int)
    (tasks : List OTask) (st : BuildState)
    (hd : tasks.Pairwise (fun a b => a.output_path ≠ b.output_path)) :
    ∀ t ∈ tasks,
      ∃ m, lookupA (tasks.foldl (taskStep false render tnow) st).fs t.output_path
        = some (m, render t) := by
  induction tasks generalizing st with
  | nil => intro t ht; simp at ht
  | cons t0 rest ih =>
    rw [List.pairwise_cons] at hd
    intro t ht
    rcases List.mem_cons.mp ht with rfl | hmem
    · obtain ⟨m0, hm0⟩ := taskStep_fs_self render tnow st t
      refine ⟨m0, ?_⟩
      rw [List.foldl_cons]
      have hpres : ∀ (rest2 : List OTask) (st2 : BuildState),
          (∀ u ∈ rest2, u.output_path ≠ t.output_path) →
          lookupA (rest2.foldl (taskStep false render tnow) st2).fs t.output_path
            = lookupA st2.fs t.output_path := by
        intro rest2
        induction rest2 with
        | nil => intro st2 _; rfl
        | cons u us ihu =>
          intro st2 hall
          rw [List.foldl_cons,
            ihu _ (fun x hx => hall x (List.mem_cons_of_mem _ hx))]
          exact taskStep_fs_ne false render tnow st2 u
            (hall u (List.mem_cons_self _ _))
      rw [hpres rest _ (fun u hu => fun he => hd.1 u hu he.symm)]
      exact hm0
    · exact ih _ hd.2 t hmem

theorem run_no_writes (render : OTask → String) (tnow : Int)
    (tasks : List OTask) (st : BuildState)
    (h : ∀ t ∈ tasks, ∃ m, lookupA st.fs t.output_path = some (m, render t)) :
    (tasks.foldl (taskStep false render tnow) st).fs = st.fs ∧
    (tasks.foldl (taskStep false render tnow) st).writes = st.writes := by
  induction tasks generalizing st with
  | nil => exact ⟨rfl, rfl⟩
  | cons t0 rest ih =>
    obtain ⟨m0, hm0⟩ := h t0 (List.mem_cons_self _ _)
    have hstep : (taskStep false render tnow st t0).fs = st.fs ∧
        (taskStep false render tnow st t0).writes = st.writes := by
      simp [taskStep, hm0]
    rw [List.foldl_cons]
    have hrec := ih (taskStep false render tnow st t0)
      (fun t ht => by rw [hstep.1]; exact h t (List.mem_cons_of_mem _ ht))
    rw [hrec.1, hrec.2, hstep.1, hstep.2]
    exact ⟨rfl, rfl⟩

/-- Claim C8, counterexample: two pages whose ids differ only in a trailing
dot-suffix (`a` and `a.b`) both produce the output path `a.html` (the
output path is the id with its final dot-suffix replaced), and a template
rendering the page id gives them different texts.  A second run with no
source changes still performs two writes, refuting the claim of zero
writes on every unchanged second run. -/
theorem outputSite_second_run_cx :
    (outputSite false renderId 2
      (outputSite false renderId 1 []
        [{ page_id := "a", latest_timestamp := 0, template := "t",
           output_path := "a.html" },
         { page_id := "a.b", latest_timestamp := 0, template := "t",
           output_path := "a.html" }]).fs
      [{ page_id := "a", latest_timestamp := 0, template := "t",
         output_path := "a.html" },
       { page_id := "a.b", latest_timestamp := 0, template := "t",
         output_path := "a.html" }]).writes ≠ 0 := by decide

/-- Claim C8 (amended: provided the tasks' output paths are pairwise
distinct, which the counterexample's colliding page ids violate): a second
full run over the same tasks with the same renderings performs zero writes
and leaves the output tree — contents and modification times — unchanged,
because each task's output is written only when the fresh rendering
differs from the file's existing text. -/
theorem outputSite_idempotent (render : OTask → String) (tn1 tn2 : Int)
    (fs0 : FS) (tasks : List OTask)
    (hd : tasks.Pairwise (fun a b => a.output_path ≠ b.output_path)) :
    (outputSite false render tn2 (outputSite false render tn1 fs0 tasks).fs
        tasks).writes = 0 ∧
    (outputSite false render tn2 (outputSite false render tn1 fs0 tasks).fs
        tasks).fs = (outputSite false render tn1 fs0 tasks).fs := by
  have hcontent := run_fs_content render tn1 tasks
    { fs := fs0, rendered := [], writes := 0 } hd
  have h2 := run_no_writes render tn2 tasks
    { fs := (outputSite false render tn1 fs0 tasks).fs, rendered := [],
      writes := 0 }
    (fun t ht => hcontent t ht)
  exact ⟨h2.2, h2.1⟩

/-! ## Claim C3: sharded-content grouping (`process_content`) -/

theorem groupFold_lookup {κ α : Type} [DecidableEq κ] (pairs : List (κ × α))
    (d : List (κ × List α)) (k : κ) :
    lookupA (groupFold pairs d) k =
      (match lookupA d k, (pairs.filter (fun kv => kv.1 = k)).map Prod.snd with
       | some v, bs => some (v ++ bs)
       | none, [] => none
       | none, bs => some bs) := by
  induction pairs generalizing d with
  | nil =>
    show lookupA d k = _
    cases lookupA d k <;> simp
  | cons kv rest ih =>
    show lookupA (groupFold rest (appendA d kv.1 kv.2)) k = _
    rw [ih (appendA d kv.1 kv.2)]
    by_cases hk : kv.1 = k
    · subst hk
      rw [lookupA_appendA_self]
      cases hd : lookupA d kv.1 with
      | none => simp [List.filter_cons]
      | some v => simp [List.filter_cons]
    · rw [lookupA_appendA_ne d kv.2 (fun h => hk h.symm)]
      simp [List.filter_cons, hk]

theorem lookupA_mapVals {κ α β : Type} [DecidableEq κ] (d : List (κ × α))
    (g : α → β) (k : κ) :
    lookupA (d.map fun kv => (kv.1, g kv.2)) k = (lookupA d k).map g := by
  induction d with
  | nil => rfl
  | cons kv rest ih =>
    by_cases hk : kv.1 = k <;> simp [lookupA, hk, ih]

theorem buildShardDict_eq (pairs : List (String × String)) :
    buildShardDict pairs
      = groupFold (pairs.map fun kv => (kv.1, pyShardBody kv.2)) [] := by
  unfold buildShardDict groupFold
  rw [List.foldl_map]

/-- Claim C3: in a sharded text file the decoder groups bodies by marker
identifier — an identifier occurring exactly once binds to a single
(scalar) string value, and one occurring more than once binds to the
ordered list of its bodies in file order.  `shards` is the marker-split of
the file, `shardBodies` the bodies following markers for identifier `i` in
file order (escaped and stripped as the code does before grouping); the
nesting of dotted identifiers into tables is performed downstream by the
external TOML parser on the synthetic document and is outside this model. -/
theorem processSharded_groups (shards : List String)
    (out : List (String × ShardVal)) (i : String)
    (h : processSharded shards = some out) :
    lookupA out i =
      match shardBodies i shards with
      | [] => none
      | [b] => some (ShardVal.scalar b)
      | bs => some (ShardVal.array bs) := by
  unfold processSharded at h
  split at h
  case isFalse => exact absurd h (by simp)
  case isTrue hcond =>
    have hout : out = shardValues (buildShardDict (zipPairs shards.tail)) :=
      (Option.some.inj h).symm
    subst hout
    unfold shardValues
    have hmap := lookupA_mapVals (buildShardDict (zipPairs shards.tail))
      (fun v => if v.length > 1 then ShardVal.array v
                else ShardVal.scalar (v.headD "")) i
    rw [hmap, buildShardDict_eq, groupFold_lookup]
    simp only [lookupA]
    have hfil : ((zipPairs shards.tail).map
        (fun kv => (kv.1, pyShardBody kv.2))).filter (fun kv => kv.1 = i)
        = ((zipPairs shards.tail).filter (fun kv => kv.1 = i)).map
            (fun kv => (kv.1, pyShardBody kv.2)) := by
      rw [List.filter_map]
      rfl
    rw [hfil, List.map_map]
    have hbs : (((zipPairs shards.tail).filter (fun kv => kv.1 = i)).map
        (Prod.snd ∘ fun kv => (kv.1, pyShardBody kv.2))) = shardBodies i shards := by
      unfold shardBodies
      rfl
    rw [hbs]
    cases hb : shardBodies i shards with
    | nil => simp
    | cons b bs =>
      cases bs with
      | nil => simp
      | cons b2 bs2 => simp

/-- Claim C3, witness: a file whose markers are `a`, `a`, `c` with bodies
`x`, `y`, `z` binds `a` to the two-element list and `c` to the scalar. -/
theorem processSharded_groups_witness :
    processSharded ["", "a", " x ", "a", "y", "c", "z"]
      = some [("a", ShardVal.array ["x", "y"]), ("c", ShardVal.scalar "z")] ∧
    lookupA [("a", ShardVal.array ["x", "y"]), ("c", ShardVal.scalar "z")] "a"
      = some (ShardVal.array ["x", "y"]) ∧
    lookupA [("a", ShardVal.array ["x", "y"]), ("c", ShardVal.scalar "z")] "c"
      = some (ShardVal.scalar "z") :=
  ⟨by decide,
   (processSharded_groups ["", "a", " x ", "a", "y", "c", "z"]
      [("a", ShardVal.array ["x", "y"]), ("c", ShardVal.scalar "z")] "a"
      (by decide)).trans (by decide),
   (processSharded_groups ["", "a", " x ", "a", "y", "c", "z"]
      [("a", ShardVal.array ["x", "y"]), ("c", ShardVal.scalar "z")] "c"
      (by decide)).trans (by decide)⟩

/-- Claim C8 (amended), witness: two tasks with distinct output paths; the
second run performs zero writes. -/
theorem outputSite_idempotent_witness :
    (outputSite false renderId 2
      (outputSite false renderId 1 []
        [{ page_id := "a", latest_timestamp := 0, template := "t",
           output_path := "a.html" },
         { page_id := "b", latest_timestamp := 0, template := "t",
           output_path := "b.html" }]).fs
      [{ page_id := "a", latest_timestamp := 0, template := "t",
         output_path := "a.html" },
       { page_id := "b", latest_timestamp := 0, template := "t",
         output_path := "b.html" }]).writes = 0 :=
  (outputSite_idempotent renderId 1 2 []
    [{ page_id := "a", latest_timestamp := 0, template := "t",
       output_path := "a.html" },
     { page_id := "b", latest_timestamp := 0, template := "t",
       output_path := "b.html" }] (by decide)).1

/-! ## Supporting lemmas: ordering keys and sorting -/

theorem kiLt_iff (a b : Int × String) :
    kiLt a b = true ↔ a.1 < b.1 ∨ (a.1 = b.1 ∧ a.2 < b.2) := by
  unfold kiLt
  split_ifs with h1 h2
  · simp [h1]
  · simp [h1, h2]
  · simp [h1, h2]

theorem kiLt_asymm {a b : Int × String} (h : kiLt a b = true) :
    kiLt b a = false := by
  cases hba : kiLt b a
  · rfl
  · exfalso
    rw [kiLt_iff] at h
    have h2 := (kiLt_iff b a).mp hba
    rcases h with h | ⟨he, hs⟩ <;> rcases h2 with h2 | ⟨he2, hs2⟩
    · omega
    · omega
    · omega
    · exact absurd (lt_trans hs hs2) (lt_irrefl _)

theorem kiLt_trans {a b c : Int × String} (h1 : kiLt a b = true)
    (h2 : kiLt b c = true) : kiLt a c = true := by
  rw [kiLt_iff] at h1 h2 ⊢
  rcases h1 with h1 | ⟨e1, s1⟩ <;> rcases h2 with h2 | ⟨e2, s2⟩
  · exact Or.inl (by omega)
  · exact Or.inl (by omega)
  · exact Or.inl (by omega)
  · exact Or.inr ⟨by omega, lt_trans s1 s2⟩

theorem insertT_perm {α : Type} (lt : α → α → Bool) (x : α) (l : List α) :
    (insertT lt x l).Perm (x :: l) := by
  induction l with
  | nil => exact List.Perm.refl _
  | cons y ys ih =>
    simp only [insertT]
    cases hxy : lt x y
    · rw [if_neg (by simp)]
      exact (ih.cons y).trans (List.Perm.swap x y ys)
    · rw [if_pos rfl]

theorem sortT_perm {α : Type} (lt : α → α → Bool) (l : List α) :
    (sortT lt l).Perm l := by
  induction l with
  | nil => exact List.Perm.refl _
  | cons x xs ih => exact (insertT_perm lt x (sortT lt xs)).trans (ih.cons x)

theorem insertT_pairwise {α : Type} (lt : α → α → Bool)
    (hasym : ∀ a b, lt a b = true → lt b a = false)
    (htrans : ∀ a b c, lt a b = true → lt b c = true → lt a c = true)
    (x : α) (l : List α) (hl : l.Pairwise (fun a b => lt b a = false)) :
    (insertT lt x l).Pairwise (fun a b => lt b a = false) := by
  induction l with
  | nil => simp [insertT]
  | cons y ys ih =>
    rw [List.pairwise_cons] at hl
    simp only [insertT]
    cases hxy : lt x y
    · rw [if_neg (by simp)]
      rw [List.pairwise_cons]
      refine ⟨fun z hz => ?_, ih hl.2⟩
      rcases List.mem_cons.mp ((insertT_perm lt x ys).mem_iff.mp hz)
        with rfl | hzys
      · exact hxy
      · exact hl.1 z hzys
    · rw [if_pos rfl]
      rw [List.pairwise_cons]
      refine ⟨fun z hz => ?_, List.pairwise_cons.mpr ⟨hl.1, hl.2⟩⟩
      rcases List.mem_cons.mp hz with rfl | hzys
      · exact hasym x z hxy
      · cases hzx : lt z x
        · rfl
        · exfalso
          have hzy := htrans z x y hzx hxy
          rw [hl.1 z hzys] at hzy
          exact absurd hzy (by simp)

theorem sortT_pairwise {α : Type} (lt : α → α → Bool)
    (hasym : ∀ a b, lt a b = true → lt b a = false)
    (htrans : ∀ a b c, lt a b = true → lt b c = true → lt a c = true)
    (l : List α) :
    (sortT lt l).Pairwise (fun a b => lt b a = false) := by
  induction l with
  | nil => simp [sortT]
  | cons x xs ih => exact insertT_pairwise lt hasym htrans x (sortT lt xs) ih

theorem insertE_eq {α : Type} (ltE : α → α → Except Unit Bool)
    (ltb : α → α → Bool) (x : α) (l : List α)
    (h : ∀ y ∈ l, ltE x y = Except.ok (ltb x y)) :
    insertE ltE x l = Except.ok (insertT ltb x l) := by
  induction l with
  | nil => rfl
  | cons y ys ih =>
    simp only [insertE, insertT]
    rw [h y (List.mem_cons_self _ _)]
    cases hxy : ltb x y
    · rw [ih (fun z hz => h z (List.mem_cons_of_mem _ hz))]
      simp
    · simp

theorem sortE_eq {α : Type} (ltE : α → α → Except Unit Bool)
    (ltb : α → α → Bool) (l : List α)
    (h : ∀ a ∈ l, ∀ b ∈ l, ltE a b = Except.ok (ltb a b)) :
    sortE ltE l = Except.ok (sortT ltb l) := by
  induction l with
  | nil => rfl
  | cons x xs ih =>
    simp only [sortE, sortT]
    rw [ih (fun a ha b hb =>
      h a (List.mem_cons_of_mem _ ha) b (List.mem_cons_of_mem _ hb))]
    exact insertE_eq ltE ltb x (sortT ltb xs) (fun y hy =>
      h x (List.mem_cons_self _ _) y
        (List.mem_cons_of_mem _ ((sortT_perm ltb xs).mem_iff.mp hy)))

theorem partitionE_eq {α : Type} (p : α → Except Unit Bool) (pb : α → Bool)
    (l : List α) (h : ∀ a ∈ l, p a = Except.ok (pb a)) :
    partitionE p l
      = Except.ok (l.filter pb, l.filter (fun a => !pb a)) := by
  induction l with
  | nil => rfl
  | cons x xs ih =>
    simp only [partitionE]
    rw [h x (List.mem_cons_self _ _),
      ih (fun a ha => h a (List.mem_cons_of_mem _ ha))]
    cases hx : pb x <;> simp [List.filter_cons, hx]

theorem pyKeyLt_ok (ps : PageMap) {a b : String} {wa wb : Int}
    (ha : wOf ps a = some wa) (hb : wOf ps b = some wb) :
    pyKeyLt (skey ps a) (skey ps b)
      = Except.ok (kiLt (ikey ps a) (ikey ps b)) := by
  unfold skey ikey
  rw [ha, hb]
  rfl

/-! ## Claim C1: sibling partition and ordering (`sort_siblings`) -/

/-- Claim C1: for a subject page with an integer weight among siblings that
all bear weights, `sort_siblings` partitions the other siblings by the
`(weight, id)` key into those strictly below the subject's key and the
rest; each part is ascending by the key; the returned list is the lighter
part followed by the heavier part; the lighter neighbor is the last element
of the lighter part and the heavier neighbor the first element of the
heavier part (each absent when its part is empty). -/
theorem sortSiblings_partition (ps : PageMap) (sibs : List String)
    (me : String) (pme : Page) (w : Int)
    (hme : lookupA ps me = some pme) (hw : pme.weight = some w)
    (hsibs : ∀ a ∈ sibs, wOf ps a ≠ none) :
    ∃ L1 L2,
      sortSiblings sibs me ps = Except.ok (L1 ++ L2, L1.getLast?, L2.head?) ∧
      L1.Perm ((sibs.filter (fun s => s ≠ me)).filter
        (fun s => kiLt (ikey ps s) (ikey ps me))) ∧
      L2.Perm ((sibs.filter (fun s => s ≠ me)).filter
        (fun s => !kiLt (ikey ps s) (ikey ps me))) ∧
      (∀ x ∈ L1, kiLt (ikey ps x) (ikey ps me) = true) ∧
      (∀ x ∈ L2, kiLt (ikey ps x) (ikey ps me) = false) ∧
      L1.Pairwise (fun a b => kiLt (ikey ps b) (ikey ps a) = false) ∧
      L2.Pairwise (fun a b => kiLt (ikey ps b) (ikey ps a) = false) := by
  have hwme : wOf ps me = some w := by
    unfold wOf
    rw [hme]
    exact hw
  have hrestsub : ∀ a ∈ sibs.filter (fun s => s ≠ me), wOf ps a ≠ none :=
    fun a ha => hsibs a (List.mem_of_mem_filter ha)
  have hOK : ∀ a ∈ sibs.filter (fun s => s ≠ me),
      pyKeyLt (skey ps a) (skey ps me)
        = Except.ok (kiLt (ikey ps a) (ikey ps me)) := by
    intro a ha
    obtain ⟨wa, hwa⟩ := Option.ne_none_iff_exists'.mp (hrestsub a ha)
    exact pyKeyLt_ok ps hwa hwme
  have hpart := partitionE_eq (fun s => pyKeyLt (skey ps s) (skey ps me))
    (fun s => kiLt (ikey ps s) (ikey ps me)) (sibs.filter (fun s => s ≠ me))
    hOK
  have hcmp : ∀ l : List String, (∀ a ∈ l, a ∈ sibs) →
      sortE (fun a b => pyKeyLt (skey ps a) (skey ps b)) l
        = Except.ok (sortT (fun a b => kiLt (ikey ps a) (ikey ps b)) l) := by
    intro l hsub
    apply sortE_eq
    intro a ha b hb
    obtain ⟨wa, hwa⟩ := Option.ne_none_iff_exists'.mp (hsibs a (hsub a ha))
    obtain ⟨wb, hwb⟩ := Option.ne_none_iff_exists'.mp (hsibs b (hsub b hb))
    exact pyKeyLt_ok ps hwa hwb
  have hasym2 : ∀ a b : String,
      kiLt (ikey ps a) (ikey ps b) = true →
      kiLt (ikey ps b) (ikey ps a) = false :=
    fun a b h => kiLt_asymm h
  have htrans2 : ∀ a b c : String,
      kiLt (ikey ps a) (ikey ps b) = true →
      kiLt (ikey ps b) (ikey ps c) = true →
      kiLt (ikey ps a) (ikey ps c) = true :=
    fun a b c h1 h2 => kiLt_trans h1 h2
  refine ⟨sortT (fun a b => kiLt (ikey ps a) (ikey ps b))
      ((sibs.filter (fun s => s ≠ me)).filter
        (fun s => kiLt (ikey ps s) (ikey ps me))),
    sortT (fun a b => kiLt (ikey ps a) (ikey ps b))
      ((sibs.filter (fun s => s ≠ me)).filter
        (fun s => !kiLt (ikey ps s) (ikey ps me))),
    ?_, sortT_perm _ _, sortT_perm _ _, ?_, ?_,
    sortT_pairwise _ hasym2 htrans2 _, sortT_pairwise _ hasym2 htrans2 _⟩
  · simp only [sortSiblings, hme, hw, hpart]
    rw [hcmp _ (fun a ha =>
      List.mem_of_mem_filter (List.mem_of_mem_filter ha))]
    rw [hcmp _ (fun a ha =>
      List.mem_of_mem_filter (List.mem_of_mem_filter ha))]
  · intro x hx
    have := (sortT_perm _ _).mem_iff.mp hx
    exact (List.mem_filter.mp this).2
  · intro x hx
    have := (sortT_perm _ _).mem_iff.mp hx
    have hb := (List.mem_filter.mp this).2
    simp only [Bool.not_eq_true'] at hb
    exact hb

/-- Claim C1, witness: a directory with subject weight 2 between siblings of
weights 1 and 3 (page map below): the partition, ordering and neighbor
properties hold at this concrete input. -/
theorem sortSiblings_partition_witness :
    ∃ L1 L2,
      sortSiblings ["d/a", "d/c", "d/b"] "d/b"
          [("d/a", { id := "d/a", path := "d/a.html", weight := some 1,
                     tags := [] }),
           ("d/b", { id := "d/b", path := "d/b.html", weight := some 2,
                     tags := [] }),
           ("d/c", { id := "d/c", path := "d/c.html", weight := some 3,
                     tags := [] })]
        = Except.ok (L1 ++ L2, L1.getLast?, L2.head?) ∧
      L1.Perm (((["d/a", "d/c", "d/b"].filter (fun s => s ≠ "d/b")).filter
        (fun s => kiLt
          (ikey [("d/a", { id := "d/a", path := "d/a.html", weight := some 1,
                           tags := [] }),
                 ("d/b", { id := "d/b", path := "d/b.html", weight := some 2,
                           tags := [] }),
                 ("d/c", { id := "d/c", path := "d/c.html", weight := some 3,
                           tags := [] })] s)
          (ikey [("d/a", { id := "d/a", path := "d/a.html", weight := some 1,
                           tags := [] }),
                 ("d/b", { id := "d/b", path := "d/b.html", weight := some 2,
                           tags := [] }),
                 ("d/c", { id := "d/c", path := "d/c.html", weight := some 3,
                           tags := [] })] "d/b")))) ∧
      L2.Perm (((["d/a", "d/c", "d/b"].filter (fun s => s ≠ "d/b")).filter
        (fun s => !kiLt
          (ikey [("d/a", { id := "d/a", path := "d/a.html", weight := some 1,
                           tags := [] }),
                 ("d/b", { id := "d/b", path := "d/b.html", weight := some 2,
                           tags := [] }),
                 ("d/c", { id := "d/c", path := "d/c.html", weight := some 3,
                           tags := [] })] s)
          (ikey [("d/a", { id := "d/a", path := "d/a.html", weight := some 1,
                           tags := [] }),
                 ("d/b", { id := "d/b", path := "d/b.html", weight := some 2,
                           tags := [] }),
                 ("d/c", { id := "d/c", path := "d/c.html", weight := some 3,
                           tags := [] })] "d/b")))) ∧
      (∀ x ∈ L1, kiLt
        (ikey [("d/a", { id := "d/a", path := "d/a.html", weight := some 1,
                         tags := [] }),
               ("d/b", { id := "d/b", path := "d/b.html", weight := some 2,
                         tags := [] }),
               ("d/c", { id := "d/c", path := "d/c.html", weight := some 3,
                         tags := [] })] x)
        (ikey [("d/a", { id := "d/a", path := "d/a.html", weight := some 1,
                         tags := [] }),
               ("d/b", { id := "d/b", path := "d/b.html", weight := some 2,
                         tags := [] }),
               ("d/c", { id := "d/c", path := "d/c.html", weight := some 3,
                         tags := [] })] "d/b") = true) ∧
      (∀ x ∈ L2, kiLt
        (ikey [("d/a", { id := "d/a", path := "d/a.html", weight := some 1,
                         tags := [] }),
               ("d/b", { id := "d/b", path := "d/b.html", weight := some 2,
                         tags := [] }),
               ("d/c", { id := "d/c", path := "d/c.html", weight := some 3,
                         tags := [] })] x)
        (ikey [("d/a", { id := "d/a", path := "d/a.html", weight := some 1,
                         tags := [] }),
               ("d/b", { id := "d/b", path := "d/b.html", weight := some 2,
                         tags := [] }),
               ("d/c", { id := "d/c", path := "d/c.html", weight := some 3,
                         tags := [] })] "d/b") = false) ∧
      L1.Pairwise (fun a b => kiLt
        (ikey [("d/a", { id := "d/a", path := "d/a.html", weight := some 1,
                         tags := [] }),
               ("d/b", { id := "d/b", path := "d/b.html", weight := some 2,
                         tags := [] }),
               ("d/c", { id := "d/c", path := "d/c.html", weight := some 3,
                         tags := [] })] b)
        (ikey [("d/a", { id := "d/a", path := "d/a.html", weight := some 1,
                         tags := [] }),
               ("d/b", { id := "d/b", path := "d/b.html", weight := some 2,
                         tags := [] }),
               ("d/c", { id := "d/c", path := "d/c.html", weight := some 3,
                         tags := [] })] a) = false) ∧
      L2.Pairwise (fun a b => kiLt
        (ikey [("d/a", { id := "d/a", path := "d/a.html", weight := some 1,
                         tags := [] }),
               ("d/b", { id := "d/b", path := "d/b.html", weight := some 2,
                         tags := [] }),
               ("d/c", { id := "d/c", path := "d/c.html", weight := some 3,
                         tags := [] })] b)
        (ikey [("d/a", { id := "d/a", path := "d/a.html", weight := some 1,
                         tags := [] }),
               ("d/b", { id := "d/b", path := "d/b.html", weight := some 2,
                         tags := [] }),
               ("d/c", { id := "d/c", path := "d/c.html", weight := some 3,
                         tags := [] })] a) = false) :=
  sortSiblings_partition
    [("d/a", { id := "d/a", path := "d/a.html", weight := some 1, tags := [] }),
     ("d/b", { id := "d/b", path := "d/b.html", weight := some 2, tags := [] }),
     ("d/c", { id := "d/c", path := "d/c.html", weight := some 3, tags := [] })]
    ["d/a", "d/c", "d/b"] "d/b"
    { id := "d/b", path := "d/b.html", weight := some 2, tags := [] } 2
    (by decide) (by decide) (by decide)

/-! ## Claim C6: tag-index sorting against unweighted pages -/

/-- Claim C6 is refuted by the code: the tag-index sort key
`(pages[a].weight, a)` does not give a total order between the unweighted
sentinel and integer weights — Python's tuple comparison raises `TypeError`
when `None` meets an integer.  Concretely, a tag `t` carried both by an
unweighted index page and by a weight-0 page crashes `process_tags`;
the embedding returns the error. -/
theorem processTags_mixed_crash :
    processTags
      [("d/index", { id := "d/index", path := "", weight := none,
                     tags := ["t"] }),
       ("d/a", { id := "d/a", path := "d/a.html", weight := some 0,
                 tags := ["t"] })]
      = Except.error () := by decide

/-! ## Claim C5: unweighted pages report no neighbors -/

theorem except_bind_error {α β : Type} (e : Unit) (f : α → Except Unit β) :
    (Except.error e >>= f) = Except.error e := rfl

theorem except_bind_ok {α β : Type} (a : α) (f : α → Except Unit β) :
    (Except.ok a >>= f) = f a := rfl

theorem sortSiblings_unweighted_fields {ps : PageMap} {sibs : List String}
    {me : String} {pme : Page} {r : List String × Option String × Option String}
    (hme : lookupA ps me = some pme) (hwn : pme.weight = none)
    (hr : sortSiblings sibs me ps = Except.ok r) :
    r.2.1 = none ∧ r.2.2 = none := by
  simp only [sortSiblings, hme, hwn] at hr
  cases hs : sortE (fun a b => pyKeyLt (skey ps a) (skey ps b)) sibs with
  | error e => rw [hs] at hr; simp at hr
  | ok s =>
    rw [hs] at hr
    have := Except.ok.inj hr
    rw [← this]
    exact ⟨rfl, rfl⟩

theorem fixStep_ok_destruct {sdict : List (String × List String)}
    {ps ps2 : PageMap} {k : String} (h : fixStep sdict ps k = Except.ok ps2) :
    (lookupA sdict (dirname k) = none ∧ ps2 = ps) ∨
    (∃ sibs s l hh p, lookupA sdict (dirname k) = some sibs ∧
      sortSiblings sibs k ps = Except.ok (s, l, hh) ∧ lookupA ps k = some p ∧
      ps2 = replaceA ps k
        { p with siblings := s, lighter := l, heavier := hh }) := by
  unfold fixStep at h
  split at h
  · rename_i hsd
    exact Or.inl ⟨hsd, (Except.ok.inj h).symm⟩
  · rename_i sibs hsd
    split at h
    · simp at h
    · rename_i s l hh hsort
      split at h
      · simp at h
      · rename_i p hp
        exact Or.inr ⟨sibs, s, l, hh, p, hsd, hsort, hp, (Except.ok.inj h).symm⟩

theorem fixStep_preserves_unw {sdict : List (String × List String)}
    {ps ps2 : PageMap} {k : String}
    (hQ : ∀ kv ∈ ps, kv.2.weight = none →
      kv.2.lighter = none ∧ kv.2.heavier = none)
    (hstep : fixStep sdict ps k = Except.ok ps2) :
    ∀ kv ∈ ps2, kv.2.weight = none →
      kv.2.lighter = none ∧ kv.2.heavier = none := by
  rcases fixStep_ok_destruct hstep with ⟨-, rfl⟩ | ⟨sibs, s, l, hh, p, -, hsort, hp, rfl⟩
  · exact hQ
  · intro kv hkv hwn
    obtain ⟨kv0, hkv0, hfkv⟩ := List.mem_map.mp hkv
    by_cases hk0 : kv0.1 = k
    · rw [if_pos hk0] at hfkv
      rw [← hfkv] at hwn ⊢
      have hpw : p.weight = none := hwn
      have hfields := sortSiblings_unweighted_fields hp hpw hsort
      exact ⟨hfields.1, hfields.2⟩
    · rw [if_neg hk0] at hfkv
      rw [← hfkv] at hwn ⊢
      exact hQ kv0 hkv0 hwn

theorem fixFold_preserves_unw (sdict : List (String × List String)) :
    ∀ (ks : List String) (ps ps' : PageMap),
    (∀ kv ∈ ps, kv.2.weight = none →
      kv.2.lighter = none ∧ kv.2.heavier = none) →
    List.foldlM (fixStep sdict) ps ks = Except.ok ps' →
    ∀ kv ∈ ps', kv.2.weight = none →
      kv.2.lighter = none ∧ kv.2.heavier = none := by
  intro ks
  induction ks with
  | nil =>
    intro ps ps' hQ h
    rw [List.foldlM_nil] at h
    rw [← Except.ok.inj h]
    exact hQ
  | cons k ks ih =>
    intro ps ps' hQ h
    rw [List.foldlM_cons] at h
    cases hstep : fixStep sdict ps k with
    | error e => rw [hstep, except_bind_error] at h; simp at h
    | ok ps2 =>
      rw [hstep, except_bind_ok] at h
      exact ih ps2 ps' (fixStep_preserves_unw hQ hstep) h

/-- Claim C5: (1) in any library produced by the builder (where pages start
with empty relationship fields), after `fix_siblings` every page whose
weight is the unweighted sentinel has absent `lighter` and `heavier`
fields, regardless of its directory's contents; (2) `sort_siblings` invoked
for an unweighted subject returns the full sibling set sorted by the
`(weight, id)` key with both neighbors absent. -/
theorem fixSiblings_unweighted :
    (∀ ps ps' : PageMap,
      (∀ kv ∈ ps, kv.2.weight = none →
        kv.2.lighter = none ∧ kv.2.heavier = none) →
      fixSiblings ps = Except.ok ps' →
      ∀ kv ∈ ps', kv.2.weight = none →
        kv.2.lighter = none ∧ kv.2.heavier = none)
    ∧ (∀ (ps : PageMap) (sibs : List String) (me : String) (pme : Page),
        lookupA ps me = some pme → pme.weight = none →
        (∀ a ∈ sibs, wOf ps a ≠ none) →
        ∃ s, sortSiblings sibs me ps = Except.ok (s, none, none) ∧
          s.Perm sibs ∧
          s.Pairwise (fun a b => kiLt (ikey ps b) (ikey ps a) = false)) := by
  constructor
  · intro ps ps' hQ hfix
    unfold fixSiblings at hfix
    exact fixFold_preserves_unw (buildSiblingDict ps) (ps.map Prod.fst)
      ps ps' hQ hfix
  · intro ps sibs me pme hme hwn hsibs
    have hcmp : sortE (fun a b => pyKeyLt (skey ps a) (skey ps b)) sibs
        = Except.ok (sortT (fun a b => kiLt (ikey ps a) (ikey ps b)) sibs) := by
      apply sortE_eq
      intro a ha b hb
      obtain ⟨wa, hwa⟩ := Option.ne_none_iff_exists'.mp (hsibs a ha)
      obtain ⟨wb, hwb⟩ := Option.ne_none_iff_exists'.mp (hsibs b hb)
      exact pyKeyLt_ok ps hwa hwb
    refine ⟨sortT (fun a b => kiLt (ikey ps a) (ikey ps b)) sibs, ?_,
      sortT_perm _ _,
      sortT_pairwise (fun a b => kiLt (ikey ps a) (ikey ps b))
        (fun a b h => kiLt_asymm h)
        (fun a b c h1 h2 => kiLt_trans h1 h2) sibs⟩
    simp only [sortSiblings, hme, hwn, hcmp]

/-- Claim C5, witness: a directory with an unweighted index page and a
weighted page: after `fix_siblings` the index page (and every unweighted
page) reports absent neighbors. -/
theorem fixSiblings_unweighted_witness :
    (∀ kv ∈ ([("d/index", { id := "d/index", path := "", weight := none,
                            tags := [] }),
              ("d/a", { id := "d/a", path := "d/a.html", weight := some 0,
                        tags := [] })] : PageMap),
      kv.2.weight = none → kv.2.lighter = none ∧ kv.2.heavier = none) ∧
    fixSiblings
        [("d/index", { id := "d/index", path := "", weight := none,
                       tags := [] }),
         ("d/a", { id := "d/a", path := "d/a.html", weight := some 0,
                   tags := [] })]
      = Except.ok
        [("d/index", { id := "d/index", path := "", weight := none,
                       tags := [], siblings := ["d/a"], lighter := none,
                       heavier := none }),
         ("d/a", { id := "d/a", path := "d/a.html", weight := some 0,
                   tags := [], siblings := [], lighter := none,
                   heavier := none })] ∧
    (∀ kv ∈ ([("d/index", { id := "d/index", path := "", weight := none,
                            tags := [], siblings := ["d/a"],
                            lighter := none, heavier := none }),
              ("d/a", { id := "d/a", path := "d/a.html", weight := some 0,
                        tags := [], siblings := [], lighter := none,
                        heavier := none })] : PageMap),
      kv.2.weight = none → kv.2.lighter = none ∧ kv.2.heavier = none) :=
  ⟨by decide, by decide,
   fixSiblings_unweighted.1
     [("d/index", { id := "d/index", path := "", weight := none,
                    tags := [] }),
      ("d/a", { id := "d/a", path := "d/a.html", weight := some 0,
                tags := [] })]
     [("d/index", { id := "d/index", path := "", weight := none,
                    tags := [], siblings := ["d/a"], lighter := none,
                    heavier := none }),
      ("d/a", { id := "d/a", path := "d/a.html", weight := some 0,
                tags := [], siblings := [], lighter := none,
                heavier := none })]
     (by decide) (by decide)⟩

/-! ## Claim C9: every page in a populated directory gets sibling fields -/

theorem wOf_congr {ps1 ps2 : PageMap}
    (hp : ∀ a, pweight ps1 a = pweight ps2 a) (a : String) :
    wOf ps1 a = wOf ps2 a := by
  have h := hp a
  unfold pweight at h
  unfold wOf
  cases h1 : lookupA ps1 a with
  | none =>
    cases h2 : lookupA ps2 a with
    | none => rfl
    | some p2 => rw [h1, h2] at h; simp at h
  | some p1 =>
    cases h2 : lookupA ps2 a with
    | none => rw [h1, h2] at h; simp at h
    | some p2 =>
      rw [h1, h2] at h
      simpa using h

theorem sortSiblings_congr (sibs : List String) (me : String)
    {ps1 ps2 : PageMap} (hp : ∀ a, pweight ps1 a = pweight ps2 a) :
    sortSiblings sibs me ps1 = sortSiblings sibs me ps2 := by
  have hsk : skey ps1 = skey ps2 :=
    funext (fun a => by unfold skey; rw [wOf_congr hp a])
  have hme := hp me
  unfold pweight at hme
  cases h1 : lookupA ps1 me with
  | none =>
    cases h2 : lookupA ps2 me with
    | none => simp only [sortSiblings, h1, h2]
    | some p2 => rw [h1, h2] at hme; simp at hme
  | some p1 =>
    cases h2 : lookupA ps2 me with
    | none => rw [h1, h2] at hme; simp at hme
    | some p2 =>
      rw [h1, h2] at hme
      have hw12 : p1.weight = p2.weight := by simpa using hme
      simp only [sortSiblings, h1, h2, hsk, hw12]

theorem fixStep_pweight {sdict : List (String × List String)}
    {ps ps2 : PageMap} {k : String}
    (h : fixStep sdict ps k = Except.ok ps2) (a : String) :
    pweight ps2 a = pweight ps a := by
  rcases fixStep_ok_destruct h with ⟨-, rfl⟩ |
    ⟨sibs, s, l, hh, p, -, -, hp, rfl⟩
  · rfl
  · unfold pweight
    by_cases hak : a = k
    · subst hak
      rw [lookupA_replaceA_self, hp]
      rfl
    · rw [lookupA_replaceA_ne _ _ hak]

theorem fixStep_lookup_ne {sdict : List (String × List String)}
    {ps ps2 : PageMap} {k : String}
    (h : fixStep sdict ps k = Except.ok ps2) {a : String} (hak : a ≠ k) :
    lookupA ps2 a = lookupA ps a := by
  rcases fixStep_ok_destruct h with ⟨-, rfl⟩ |
    ⟨sibs, s, l, hh, p, -, -, hp, rfl⟩
  · rfl
  · exact lookupA_replaceA_ne _ _ hak

theorem fixFold_lookup_notmem (sdict : List (String × List String)) :
    ∀ (ks : List String) (ps ps' : PageMap) (pid : String),
    pid ∉ ks → List.foldlM (fixStep sdict) ps ks = Except.ok ps' →
    lookupA ps' pid = lookupA ps pid := by
  intro ks
  induction ks with
  | nil =>
    intro ps ps' pid _ h
    rw [List.foldlM_nil] at h
    rw [← Except.ok.inj h]
  | cons k kt ih =>
    intro ps ps' pid hnm h
    rw [List.foldlM_cons] at h
    cases hstep : fixStep sdict ps k with
    | error e => rw [hstep, except_bind_error] at h; simp at h
    | ok ps2 =>
      rw [hstep, except_bind_ok] at h
      rw [ih ps2 ps' pid (fun hm => hnm (List.mem_cons_of_mem _ hm)) h]
      exact fixStep_lookup_ne hstep
        (fun he => hnm (he ▸ List.mem_cons_self _ _))

theorem fixFold_main (sdict : List (String × List String)) (ps0 : PageMap)
    (pid : String) (sibs : List String)
    (hsd : lookupA sdict (dirname pid) = some sibs) :
    ∀ (ks : List String) (ps1 ps' : PageMap) (p1 : Page),
    pid ∈ ks → ks.Nodup → lookupA ps1 pid = some p1 →
    (∀ a, pweight ps1 a = pweight ps0 a) →
    List.foldlM (fixStep sdict) ps1 ks = Except.ok ps' →
    ∃ s l h, sortSiblings sibs pid ps0 = Except.ok (s, l, h) ∧
      lookupA ps' pid
        = some { p1 with siblings := s, lighter := l, heavier := h } := by
  intro ks
  induction ks with
  | nil =>
    intro ps1 ps' p1 hmem
    simp at hmem
  | cons k kt ih =>
    intro ps1 ps' p1 hmem hnd hp1 hpw hfold
    rw [List.foldlM_cons] at hfold
    rw [List.nodup_cons] at hnd
    cases hstep : fixStep sdict ps1 k with
    | error e => rw [hstep, except_bind_error] at hfold; simp at hfold
    | ok ps2 =>
      rw [hstep, except_bind_ok] at hfold
      by_cases hk : k = pid
      · subst hk
        rcases fixStep_ok_destruct hstep with ⟨hnone, rfl⟩ |
          ⟨sibs2, s, l, hh, p, hsd2, hsort, hp, rfl⟩
        · rw [hsd] at hnone
          exact absurd hnone (by simp)
        · rw [hsd] at hsd2
          have hsibs2 : sibs2 = sibs := (Option.some.inj hsd2).symm
          rw [hsibs2] at hsort
          have hpp : p = p1 := by
            rw [hp] at hp1
            exact Option.some.inj hp1
          subst hpp
          have hcongr := sortSiblings_congr sibs k hpw
          refine ⟨s, l, hh, ?_, ?_⟩
          · rw [← hcongr]
            exact hsort
          · rw [fixFold_lookup_notmem sdict kt _ ps' k hnd.1 hfold]
            rw [lookupA_replaceA_self, hp]
            rfl
      · have hmem2 : pid ∈ kt := by
          rcases List.mem_cons.mp hmem with he | hm
          · exact absurd he.symm hk
          · exact hm
        exact ih ps2 ps' p1 hmem2 hnd.2
          (by rw [fixStep_lookup_ne hstep (fun he => hk he.symm)]; exact hp1)
          (fun a => (fixStep_pweight hstep a).trans (hpw a))
          hfold

theorem groupFold_cons {κ α : Type} [DecidableEq κ] (x : κ × α)
    (xs : List (κ × α)) (d : List (κ × List α)) :
    groupFold (x :: xs) d = groupFold xs (appendA d x.1 x.2) := rfl

theorem bsd_fold_aux (ps : PageMap) (d : List (String × List String)) :
    ps.foldl (fun d kv =>
        if kv.2.weight = none ∨ kv.2.path = "" then d
        else appendA d (dirname kv.1) kv.1) d
      = groupFold ((ps.filter (fun kv =>
          !decide (kv.2.weight = none ∨ kv.2.path = ""))).map
          (fun kv => (dirname kv.1, kv.1))) d := by
  induction ps generalizing d with
  | nil => rfl
  | cons kv rest ih =>
    rw [List.foldl_cons, List.filter_cons]
    by_cases h : kv.2.weight = none ∨ kv.2.path = ""
    · rw [if_pos h]
      have hdec : (!decide (kv.2.weight = none ∨ kv.2.path = "")) = false := by
        rw [decide_eq_true h]
        rfl
      rw [hdec, if_neg (by simp)]
      exact ih d
    · rw [if_neg h]
      have hdec : (!decide (kv.2.weight = none ∨ kv.2.path = "")) = true := by
        rw [decide_eq_false h]
        rfl
      rw [hdec, if_pos rfl, List.map_cons, groupFold_cons]
      exact ih (appendA d (dirname kv.1) kv.1)

theorem bsd_eq (ps : PageMap) :
    buildSiblingDict ps
      = groupFold ((ps.filter (fun kv =>
          !decide (kv.2.weight = none ∨ kv.2.path = ""))).map
          (fun kv => (dirname kv.1, kv.1))) [] := by
  unfold buildSiblingDict
  exact bsd_fold_aux ps []

theorem bsd_mem_of_qual {ps : PageMap} {qid : String} {q : Page}
    (hq : (qid, q) ∈ ps) (hw : q.weight ≠ none) (hpp : q.path ≠ "") :
    ∃ sibs, lookupA (buildSiblingDict ps) (dirname qid) = some sibs ∧
      qid ∈ sibs := by
  rw [bsd_eq, groupFold_lookup]
  have hqf : (qid, q) ∈ ps.filter (fun kv =>
      !decide (kv.2.weight = none ∨ kv.2.path = "")) :=
    List.mem_filter.mpr ⟨hq, by simp [hw, hpp]⟩
  have hqp2 : ((dirname qid, qid) : String × String) ∈
      (ps.filter (fun kv =>
        !decide (kv.2.weight = none ∨ kv.2.path = ""))).map
        (fun kv => (dirname kv.1, kv.1)) :=
    List.mem_map.mpr ⟨(qid, q), hqf, rfl⟩
  have hb : qid ∈ (((ps.filter (fun kv =>
      !decide (kv.2.weight = none ∨ kv.2.path = ""))).map
      (fun kv => (dirname kv.1, kv.1))).filter
      (fun kv => kv.1 = dirname qid)).map Prod.snd :=
    List.mem_map.mpr ⟨(dirname qid, qid),
      List.mem_filter.mpr ⟨hqp2, by simp⟩, rfl⟩
  cases hbs : (((ps.filter (fun kv =>
      !decide (kv.2.weight = none ∨ kv.2.path = ""))).map
      (fun kv => (dirname kv.1, kv.1))).filter
      (fun kv => kv.1 = dirname qid)).map Prod.snd with
  | nil => exact absurd (hbs ▸ hb) (by simp)
  | cons b bs =>
    rw [hbs] at hb
    exact ⟨b :: bs, rfl, hb⟩

theorem bsd_not_mem_pathless {ps : PageMap} {pid : String} {p : Page}
    (hnd : (ps.map Prod.fst).Nodup) (hp : lookupA ps pid = some p)
    (hpath : p.path = "") :
    ∀ d sl, lookupA (buildSiblingDict ps) d = some sl → pid ∉ sl := by
  intro d sl hsl hmem
  rw [bsd_eq, groupFold_lookup] at hsl
  revert hsl
  cases hbs : (((ps.filter (fun kv =>
      !decide (kv.2.weight = none ∨ kv.2.path = ""))).map
      (fun kv => (dirname kv.1, kv.1))).filter
      (fun kv => kv.1 = d)).map Prod.snd with
  | nil => intro hsl; exact Option.noConfusion hsl
  | cons b bs =>
    intro hsl
    have hslbs : sl = b :: bs := (Option.some.inj hsl).symm
    rw [hslbs, ← hbs] at hmem
    obtain ⟨kv1, hkv1, hkv1e⟩ := List.mem_map.mp hmem
    obtain ⟨hkv1m, -⟩ := List.mem_filter.mp hkv1
    obtain ⟨kv0, hkv0, hkv0e⟩ := List.mem_map.mp hkv1m
    obtain ⟨hkv0m, hkv0q⟩ := List.mem_filter.mp hkv0
    have hid : kv0.1 = pid := by
      rw [← hkv0e] at hkv1e
      exact hkv1e
    have hlk : lookupA ps pid = some kv0.2 := by
      rw [← hid]
      exact lookupA_of_mem_nodup (by rw [← @Prod.mk.eta _ _ kv0] at hkv0m; exact hkv0m) hnd
    rw [hp] at hlk
    have hkp : kv0.2 = p := Option.some.inj hlk.symm
    rw [hkp, hpath] at hkv0q
    simp at hkv0q

/-- Claim C9: after sibling fix-up, every page — including a template-less
page with an empty output path — whose directory contains at least one
weight-bearing, output-producing page receives the computed
siblings/lighter/heavier fields, while a page with an empty output path
never appears in any sibling set. -/
theorem fixSiblings_all_pages (ps ps' : PageMap) (pid : String) (p : Page)
    (qid : String) (q : Page)
    (hnd : (ps.map Prod.fst).Nodup)
    (hp : lookupA ps pid = some p)
    (hq : (qid, q) ∈ ps) (hdir : dirname qid = dirname pid)
    (hqw : q.weight ≠ none) (hqp : q.path ≠ "")
    (hfix : fixSiblings ps = Except.ok ps') :
    ∃ sibs s l h,
      lookupA (buildSiblingDict ps) (dirname pid) = some sibs ∧
      sortSiblings sibs pid ps = Except.ok (s, l, h) ∧
      lookupA ps' pid
        = some { p with siblings := s, lighter := l, heavier := h } ∧
      (p.path = "" →
        ∀ d sl, lookupA (buildSiblingDict ps) d = some sl → pid ∉ sl) := by
  obtain ⟨sibs, hsd, -⟩ := bsd_mem_of_qual hq hqw hqp
  rw [hdir] at hsd
  unfold fixSiblings at hfix
  have hmem : pid ∈ ps.map Prod.fst :=
    List.mem_map.mpr ⟨(pid, p), lookupA_mem hp, rfl⟩
  obtain ⟨s, l, h, hsort, hlook⟩ :=
    fixFold_main (buildSiblingDict ps) ps pid sibs hsd
      (ps.map Prod.fst) ps ps' p hmem hnd hp (fun a => rfl) hfix
  exact ⟨sibs, s, l, h, hsd, hsort, hlook,
    fun hpath => bsd_not_mem_pathless hnd hp hpath⟩

/-- Claim C9, witness: a template-less page `d/x` (empty output path,
weight 0) sharing directory `d` with the weighted, output-producing page
`d/a` receives computed sibling fields, although `d/x` is in no sibling
set. -/
theorem fixSiblings_all_pages_witness :
    fixSiblings
        ([("d/x", { id := "d/x", path := "", weight := some 0, tags := [] }),
          ("d/a", { id := "d/a", path := "d/a.html", weight := some 1,
                    tags := [] })] : PageMap)
      = Except.ok
        [("d/x", { id := "d/x", path := "", weight := some 0, tags := [],
                   siblings := ["d/a"], lighter := none,
                   heavier := some "d/a" }),
         ("d/a", { id := "d/a", path := "d/a.html", weight := some 1,
                   tags := [], siblings := [], lighter := none,
                   heavier := none })] ∧
    (∃ sibs s l h,
      lookupA (buildSiblingDict
        ([("d/x", { id := "d/x", path := "", weight := some 0, tags := [] }),
          ("d/a", { id := "d/a", path := "d/a.html", weight := some 1,
                    tags := [] })] : PageMap)) (dirname "d/x") = some sibs ∧
      sortSiblings sibs "d/x"
        ([("d/x", { id := "d/x", path := "", weight := some 0, tags := [] }),
          ("d/a", { id := "d/a", path := "d/a.html", weight := some 1,
                    tags := [] })] : PageMap) = Except.ok (s, l, h) ∧
      lookupA
        ([("d/x", { id := "d/x", path := "", weight := some 0, tags := [],
                    siblings := ["d/a"], lighter := none,
                    heavier := some "d/a" }),
          ("d/a", { id := "d/a", path := "d/a.html", weight := some 1,
                    tags := [], siblings := [], lighter := none,
                    heavier := none })] : PageMap) "d/x"
        = some { id := "d/x", path := "", weight := some 0, tags := [],
                 siblings := s, lighter := l, heavier := h } ∧
      (("" : String) = "" →
        ∀ d sl, lookupA (buildSiblingDict
          ([("d/x", { id := "d/x", path := "", weight := some 0,
                      tags := [] }),
            ("d/a", { id := "d/a", path := "d/a.html", weight := some 1,
                      tags := [] })] : PageMap)) d = some sl → "d/x" ∉ sl)) :=
  ⟨by decide,
   fixSiblings_all_pages
     [("d/x", { id := "d/x", path := "", weight := some 0, tags := [] }),
      ("d/a", { id := "d/a", path := "d/a.html", weight := some 1,
                tags := [] })]
     [("d/x", { id := "d/x", path := "", weight := some 0, tags := [],
                siblings := ["d/a"], lighter := none,
                heavier := some "d/a" }),
      ("d/a", { id := "d/a", path := "d/a.html", weight := some 1,
                tags := [], siblings := [], lighter := none,
                heavier := none })]
     "d/x" { id := "d/x", path := "", weight := some 0, tags := [] }
     "d/a" { id := "d/a", path := "d/a.html", weight := some 1, tags := [] }
     (by decide) (by decide) (by decide) (by decide) (by decide) (by decide)
     (by decide)⟩

end SSG
